import Mathlib

/-!
# zhv: parser, identifier filter, prompt builder, stream loop, config

A shallow embedding of the string-processing core of `zhv`
(`converter/converter.go`, `client/openai.go`, `config/config.go`, `main.go`).

Go strings that hold text are embedded as lists of Unicode code points
(`Str`): every string that reaches the parser comes out of the JSON decoder,
which only produces valid UTF-8.  Byte-level quantities (`len`, `name[0]`)
are computed from the UTF-8 encoding of the code points.  `maskAPIKey`, which
only slices and counts bytes, is embedded over the byte sequence itself.
-/

namespace Zhv

/-- A Go string holding valid UTF-8 text, as its sequence of code points. -/
abbrev Str := List Char

/-- A Go string seen as raw bytes. -/
abbrev Bytes := List UInt8

/-! ## Go library functions used by the program -/

/-- Go `len(s)`: the number of bytes of the UTF-8 encoding. -/
def goLen : Str → Nat
  | [] => 0
  | c :: cs => c.utf8Size + goLen cs

/-- Go `s[0]` on a non-empty string: the first byte of the UTF-8 encoding
(0 on the empty string, where Go would fault; never used there). -/
def firstByte : Str → UInt8
  | [] => 0
  | c :: _ => (String.utf8EncodeChar c).headD 0

/-- Go `unicode.IsSpace`, by code point: tab, line feed, vertical tab, form
feed, carriage return, space, U+0085, U+00A0, and the space separators
U+1680, U+2000..U+200A, U+2028, U+2029, U+202F, U+205F, U+3000. -/
def isSpace (c : Char) : Bool :=
  c.toNat = 0x09 || c.toNat = 0x0A || c.toNat = 0x0B || c.toNat = 0x0C ||
  c.toNat = 0x0D || c.toNat = 0x20 || c.toNat = 0x85 || c.toNat = 0xA0 ||
  c.toNat = 0x1680 || (0x2000 ≤ c.toNat && c.toNat ≤ 0x200A) ||
  c.toNat = 0x2028 || c.toNat = 0x2029 || c.toNat = 0x202F ||
  c.toNat = 0x205F || c.toNat = 0x3000

/-- Go `strings.TrimSpace`: drops leading and trailing white space. -/
def TrimSpace (s : Str) : Str :=
  ((s.dropWhile isSpace).reverse.dropWhile isSpace).reverse

/-- Go `strings.HasPrefix`. -/
def HasPrefix (s pre : Str) : Bool := pre.isPrefixOf s

/-- Go `strings.TrimPrefix`: removes `pre` once when it leads `s`. -/
def TrimPrefix (s pre : Str) : Str :=
  if HasPrefix s pre then s.drop pre.length else s

/-- The scan behind `strings.Split` for a non-empty separator: occurrences are
taken leftmost first and do not overlap.  `skip` counts the characters of a
matched separator that are still to be passed over. -/
def splitScan (sep : Str) : Nat → Str → List Str
  | _, [] => [[]]
  | skip + 1, _ :: cs => splitScan sep skip cs
  | 0, c :: cs =>
    if sep.isPrefixOf (c :: cs) then
      [] :: splitScan sep (sep.length - 1) cs
    else
      match splitScan sep 0 cs with
      | [] => [[c]]
      | p :: ps => (c :: p) :: ps

/-- Go `strings.Split(s, sep)` for a non-empty `sep` (the program only calls it
with the separators "\n" and " - "). -/
def Split (s sep : Str) : List Str := splitScan sep 0 s

/-- The scan behind `strings.ReplaceAll` for a non-empty `old`: leftmost,
non-overlapping occurrences of `old` are replaced by `new`. -/
def replaceScan (old new : Str) : Nat → Str → Str
  | _, [] => []
  | skip + 1, _ :: cs => replaceScan old new skip cs
  | 0, c :: cs =>
    if old.isPrefixOf (c :: cs) then
      new ++ replaceScan old new (old.length - 1) cs
    else
      c :: replaceScan old new 0 cs

/-- Go `strings.ReplaceAll(s, old, new)` for a non-empty `old`. -/
def ReplaceAll (s old new : Str) : Str := replaceScan old new 0 s

/-- Go `fmt.Sprintf("%d. ", i)` for a non-negative `i`. -/
def numberPrefix (i : Nat) : Str := (Nat.repr i).toList ++ ". ".toList

/-- Go `strings.Repeat` of a one-byte string. -/
def repeatByte (b : UInt8) (n : Nat) : Bytes := List.replicate n b

/-! ## converter.go: isValidVariableName -/

/-- The character test of the loop in `isValidVariableName`. -/
def allowedRune (char : Char) : Bool :=
  ('a' ≤ char && char ≤ 'z') ||
  ('A' ≤ char && char ≤ 'Z') ||
  ('0' ≤ char && char ≤ '9') ||
  char = '_' || char = '-'

/-- The `for _, char := range name` loop of `isValidVariableName`:
`false` as soon as a character fails the test. -/
def runesAllowed : Str → Bool
  | [] => true
  | char :: rest => if !(allowedRune char) then false else runesAllowed rest

/-- The declaration `isValidVariableName` of converter.go. -/
def isValidVariableName (name : Str) : Bool :=
  if name = [] then false
  else if !(runesAllowed name) then false
  else if '0'.toUInt8 ≤ firstByte name && firstByte name ≤ '9'.toUInt8 then false
  else if goLen name > 50 then false
  else true

/-! ## converter.go: parseResponse -/

/-- The `for i := 1; i <= 10; i++` loop of `parseResponse` over the values of
`i` still to try: the first matching ordinal prefix is removed and the loop
left. -/
def stripNumberPrefix (line : Str) : List Nat → Str
  | [] => line
  | i :: rest =>
    if HasPrefix line (numberPrefix i) then TrimPrefix line (numberPrefix i)
    else stripNumberPrefix line rest

/-- The prefix removal of `parseResponse`: "- ", then "• ", then the ordinal
loop for `i` from 1 to 10. -/
def stripPrefixes (line : Str) : Str :=
  stripNumberPrefix (TrimPrefix (TrimPrefix line "- ".toList) "• ".toList) (List.range' 1 10)

/-- One iteration of the `for _, line := range lines` loop of `parseResponse`,
from the candidates collected so far to the candidates after the line. -/
def parseLine (results : List Str) (raw : Str) : List Str :=
  let line := TrimSpace raw
  if line = [] then results
  else
    let line := stripPrefixes line
    let parts := Split line " - ".toList
    if parts.length ≥ 2 then
      let varName := TrimSpace (parts.headD [])
      if varName ≠ [] && isValidVariableName varName then results ++ [varName]
      else results
    else if isValidVariableName line then results ++ [line]
    else results

/-- The declaration `parseResponse` of converter.go. -/
def parseResponse (content : Str) : List Str :=
  let lines := Split content "\n".toList
  let results := lines.foldl parseLine []
  if results.length = 0 then
    let cleanContent := TrimSpace (ReplaceAll content "\n".toList " ".toList)
    if cleanContent ≠ [] then results ++ [cleanContent] else results
  else results

/-! ## converter.go: buildPrompt -/

/-- The `switch style` of `buildPrompt`: the pair `(styleDesc, examples)`. -/
def styleTexts (style : Str) : Str × Str :=
  if style = "camel".toList then
    ("驼峰命名法 (camelCase)".toList, "userName, userProfile, dataCount, isActive".toList)
  else if style = "pascal".toList then
    ("帕斯卡命名法 (PascalCase)".toList, "UserName, UserProfile, DataCount, IsActive".toList)
  else if style = "snake".toList then
    ("蛇形命名法 (snake_case)".toList, "user_name, user_profile, data_count, is_active".toList)
  else if style = "kebab".toList then
    ("短横线命名法 (kebab-case)".toList, "user-name, user-profile, data-count, is-active".toList)
  else
    ("驼峰命名法 (camelCase)".toList, "userName, userProfile, dataCount, isActive".toList)

/-- The format string of `buildPrompt` up to the first `%s`. -/
def promptHead : Str := "作为专业的变量命名助手，为中文词汇\"".toList

/-- The format string of `buildPrompt` between the first and second `%s`. -/
def promptStyle : Str := "\"生成高质量的英文变量名。\n\n## 要求\n- 命名风格: ".toList

/-- The format string of `buildPrompt` between the second and third `%s`. -/
def promptExamples : Str := "\n- 参考示例: ".toList

/-- The format string of `buildPrompt` after the third `%s`. -/
def promptTail : Str :=
  ("\n- 生成3-5个选项\n- 使用地道英语，避免中式英语\n- 符合编程最佳实践\n\n" ++
   "## 输出格式\n每行一个变量名，格式: 变量名 - 说明\n示例:\n" ++
   "userName - 用户名称\naccountName - 账户名称\nuserAccount - 用户账户\n\n" ++
   "## 命名原则\n1. 语义准确: 准确表达概念含义\n2. 简洁明了: 避免冗长或复杂的词汇\n" ++
   "3. 约定俗成: 使用业界通用术语\n4. 上下文适配: 考虑在代码中的使用场景\n\n" ++
   "现在开始生成变量名:").toList

/-- The declaration `buildPrompt` of converter.go: the format string with its three `%s`
filled by the text, the style description and the examples. -/
def buildPrompt (chineseText style : Str) : Str :=
  let texts := styleTexts style
  promptHead ++ chineseText ++ promptStyle ++ texts.1 ++ promptExamples ++ texts.2 ++ promptTail

/-! ## openai.go: the wire types and the line loop of ChatStream -/

/-- The declaration `Message` of openai.go. -/
structure Message where
  Role : Str
  Content : Str
  deriving DecidableEq, Repr

/-- The declaration `Choice` of openai.go. -/
structure Choice where
  Index : Int
  Message : Message
  deriving DecidableEq, Repr

/-- The declaration `ChatResponse` of openai.go (the token counts of `Usage` are not read by
the program and are left out). -/
structure ChatResponse where
  ID : Str
  Object : Str
  Created : Int
  Model : Str
  Choices : List Choice
  deriving DecidableEq, Repr

/-- The declaration `StreamDelta` of openai.go. -/
structure StreamDelta where
  Content : Str
  deriving DecidableEq, Repr

/-- The declaration `StreamChoice` of openai.go. -/
structure StreamChoice where
  Index : Int
  Delta : StreamDelta
  FinishReason : Option Str
  deriving DecidableEq, Repr

/-- The declaration `StreamResponse` of openai.go. -/
structure StreamResponse where
  ID : Str
  Object : Str
  Created : Int
  Model : Str
  Choices : List StreamChoice
  deriving DecidableEq, Repr

/-- The errors the program reports, by the place that raises them. -/
inductive ZhvError where
  | sendTimeout
  | tokenTooLong
  | readFailed (cause : ZhvError)
  | transport (msg : Str)
  | noChoices
  | chatFailed (cause : ZhvError)
  | streamFailed (cause : ZhvError)
  deriving DecidableEq, Repr

/-- The marker "data: " that leads an event line. -/
def dataMarker : Str := "data: ".toList

/-- The payload "[DONE]" that ends the stream. -/
def donePayload : Str := "[DONE]".toList

/-- What the line loop of `ChatStream` has done when it is left: the events
sent on the response channel, the payloads handed to `json.Unmarshal`, and the
error written to the error channel, if any. -/
structure LoopResult where
  forwarded : List StreamResponse
  decoded : List Str
  err : Option ZhvError
  deriving DecidableEq, Repr

/-- Go `bufio.MaxScanTokenSize`: the buffer of a scanner created by
`bufio.NewScanner` grows to 64 KiB and no further. -/
def maxScanTokenSize : Nat := 64 * 1024

/-- The scanner cannot deliver the line: the line and the newline that ends it
do not fit the buffer, so `Scan` returns false and `Err` is `ErrTooLong`. -/
def scanTooLong (raw : Str) : Bool := decide (maxScanTokenSize ≤ goLen raw)

/-- Go `dropCR` of `bufio.ScanLines`: one trailing carriage return is removed
from the line. -/
def dropCR (raw : Str) : Str :=
  if raw.getLast? = some '\r' then raw.dropLast else raw

/-- The `for scanner.Scan()` loop of `ChatStream` and the `scanner.Err()` test
after it, over the lines of a response body that is read to its end without
transport error; each line is what stands before one newline of the body.
`unmarshal` is `json.Unmarshal` into a `StreamResponse`; `accepts n` tells
whether the consumer takes the `n`-th send within the five seconds of the
`select`; `sent` counts the sends made so far.  A line that does not fit the
scanner's buffer ends the loop, and the scanner's error goes to the error
channel. -/
def lineLoop (unmarshal : Str → Option StreamResponse) (accepts : Nat → Bool) :
    Nat → List Str → LoopResult
  | _, [] => { forwarded := [], decoded := [], err := none }
  | sent, raw :: rest =>
    if scanTooLong raw then
      { forwarded := [], decoded := [],
        err := some (ZhvError.readFailed ZhvError.tokenTooLong) }
    else
      let line := TrimSpace (dropCR raw)
      if line = [] || !(HasPrefix line dataMarker) then
        lineLoop unmarshal accepts sent rest
      else
        let data := TrimPrefix line dataMarker
        if data = donePayload then
          { forwarded := [], decoded := [], err := none }
        else
          match unmarshal data with
          | none =>
            let r := lineLoop unmarshal accepts sent rest
            { r with decoded := data :: r.decoded }
          | some streamResp =>
            if accepts sent then
              let r := lineLoop unmarshal accepts (sent + 1) rest
              { forwarded := streamResp :: r.forwarded, decoded := data :: r.decoded,
                err := r.err }
            else
              { forwarded := [], decoded := [data], err := some ZhvError.sendTimeout }

/-- The consumer of the claims about the line loop: it takes every event. -/
def acceptAll : Nat → Bool := fun _ => true

/-! ## converter.go: the buffered and the streaming conversion -/

/-- The declaration `ConvertToVariableName` of converter.go after the request is sent:
`chat` is what `client.Chat` returned. -/
def ConvertToVariableName (chat : Except ZhvError ChatResponse) : Except ZhvError (List Str) :=
  match chat with
  | .error e => .error (ZhvError.chatFailed e)
  | .ok response =>
    match response.Choices with
    | [] => .error ZhvError.noChoices
    | first :: _ => .ok (parseResponse first.Message.Content)

/-- What one pass of the `select` of `ConvertToVariableNameStream` receives. -/
inductive Received where
  | response (r : StreamResponse)
  | responseClosed
  | error (e : Option ZhvError)
  deriving DecidableEq, Repr

/-- What `ConvertToVariableNameStream` has done when it returns: the arguments
of the calls of `onContent` in order, the argument of the call of `onComplete`
if it was made, and the error returned. -/
structure StreamOutcome where
  onContent : List Str
  onComplete : Option (List Str)
  err : Option ZhvError
  deriving DecidableEq, Repr

/-- The `for { select { ... } }` loop of `ConvertToVariableNameStream` over
what the two channels deliver; `fullContent` is the builder and `calls` the
`onContent` calls made so far.  `none` when the deliveries end before the loop
returns. -/
def selectLoop (fullContent : Str) (calls : List Str) : List Received → Option StreamOutcome
  | [] => none
  | Received.responseClosed :: _ =>
    some { onContent := calls, onComplete := some (parseResponse fullContent), err := none }
  | Received.response response :: rest =>
    match response.Choices with
    | [] => selectLoop fullContent calls rest
    | first :: _ =>
      let content := first.Delta.Content
      if content ≠ [] then selectLoop (fullContent ++ content) (calls ++ [content]) rest
      else selectLoop fullContent calls rest
  | Received.error none :: rest => selectLoop fullContent calls rest
  | Received.error (some e) :: _ =>
    some { onContent := calls, onComplete := none, err := some (ZhvError.streamFailed e) }

/-- The declaration `ConvertToVariableNameStream` of converter.go after the request is sent. -/
def ConvertToVariableNameStream (received : List Received) : Option StreamOutcome :=
  selectLoop [] [] received

/-! ## config.go: Config.IsValid -/

/-- The declaration `Config` of config.go. -/
structure Config where
  APIURL : Str
  Model : Str
  APIKey : Str
  deriving DecidableEq, Repr

/-- The declaration `Config.IsValid` of config.go. -/
def Config.IsValid (c : Config) : Bool :=
  c.APIKey != [] && c.APIURL != [] && c.Model != []

/-! ## main.go: maskAPIKey -/

/-- The declaration `maskAPIKey` of main.go, on the bytes of the key. -/
def maskAPIKey (key : Bytes) : Bytes :=
  if key.length ≤ 8 then
    repeatByte '*'.toUInt8 key.length
  else
    key.take 4 ++ repeatByte '*'.toUInt8 (key.length - 8) ++ key.drop (key.length - 4)

/-- The number of positions of a masked key that still show a key byte, that is,
that do not hold the mask byte `*`. -/
def visibleCount (masked : Bytes) : Nat :=
  masked.countP (fun b => b != '*'.toUInt8)

/-! ## The vocabulary of the specification -/

/-- An ASCII letter. -/
def isAsciiLetter (c : Char) : Prop := ('a' ≤ c ∧ c ≤ 'z') ∨ ('A' ≤ c ∧ c ≤ 'Z')

/-- An ASCII digit. -/
def isAsciiDigit (c : Char) : Prop := '0' ≤ c ∧ c ≤ '9'

/-- A character an identifier may hold: ASCII letter, ASCII digit, `_` or `-`. -/
def isNameChar (c : Char) : Prop := isAsciiLetter c ∨ isAsciiDigit c ∨ c = '_' ∨ c = '-'

/-- The first character of the name is a digit. -/
def startsWithDigit (name : Str) : Prop := ∃ c rest, name = c :: rest ∧ isAsciiDigit c

/-- The first character of the name is a letter. -/
def startsWithLetter (name : Str) : Prop := ∃ c rest, name = c :: rest ∧ isAsciiLetter c

/-- The candidate one line of the response contributes, if any: what one pass
of the loop of `parseResponse` appends. -/
def lineCandidate (raw : Str) : Option Str :=
  if TrimSpace raw = [] then none
  else if (Split (stripPrefixes (TrimSpace raw)) " - ".toList).length ≥ 2 then
    if TrimSpace ((Split (stripPrefixes (TrimSpace raw)) " - ".toList).headD []) ≠ [] &&
        isValidVariableName
          (TrimSpace ((Split (stripPrefixes (TrimSpace raw)) " - ".toList).headD [])) then
      some (TrimSpace ((Split (stripPrefixes (TrimSpace raw)) " - ".toList).headD []))
    else none
  else if isValidVariableName (stripPrefixes (TrimSpace raw)) then
    some (stripPrefixes (TrimSpace raw))
  else none

/-- The text has a character that is not white space. -/
def hasInk (s : Str) : Prop := ∃ c ∈ s, isSpace c = false

/-- A line yields a candidate: after trimming and prefix stripping, either the
text splits at " - " and its trimmed left side is accepted by
`isValidVariableName`, or the whole text is accepted. -/
def yieldsCandidate (raw : Str) : Prop :=
  (2 ≤ (Split (stripPrefixes (TrimSpace raw)) " - ".toList).length ∧
    isValidVariableName
      (TrimSpace ((Split (stripPrefixes (TrimSpace raw)) " - ".toList).headD [])) = true) ∨
  isValidVariableName (stripPrefixes (TrimSpace raw)) = true

/-- A line yields a candidate, with the left side taken as it stands: after
trimming and prefix stripping, either the text splits at " - " and the text
before the first " - " is accepted by `isValidVariableName`, or the whole text
is accepted. -/
def yieldsCandidateUntrimmed (raw : Str) : Prop :=
  (2 ≤ (Split (stripPrefixes (TrimSpace raw)) " - ".toList).length ∧
    isValidVariableName
      ((Split (stripPrefixes (TrimSpace raw)) " - ".toList).headD []) = true) ∨
  isValidVariableName (stripPrefixes (TrimSpace raw)) = true

/-- The text with every newline replaced by a space. -/
def newlinesToSpaces (s : Str) : Str := s.map (fun c => if c = '\n' then ' ' else c)

/-- A recognised line prefix: empty, "- ", "• ", or "k. " for 1 ≤ k ≤ 10. -/
def isLinePrefix (p : Str) : Prop :=
  p = [] ∨ p = "- ".toList ∨ p = "• ".toList ∨ ∃ k, 1 ≤ k ∧ k ≤ 10 ∧ p = numberPrefix k

/-- An entry of a well-formed response: line prefix, name, description. -/
structure Entry where
  pre : Str
  name : Str
  desc : Str
  deriving DecidableEq, Repr

/-- The line of an entry: prefix, name, " - ", description. -/
def Entry.line (e : Entry) : Str := e.pre ++ e.name ++ " - ".toList ++ e.desc

/-- The entry is as the parser expects it: a recognised prefix, a name accepted
by `isValidVariableName` that begins with a letter, and a description without
newline that has a character other than white space. -/
def Entry.wellFormed (e : Entry) : Prop :=
  isLinePrefix e.pre ∧ isValidVariableName e.name = true ∧ startsWithLetter e.name ∧
  '\n' ∉ e.desc ∧ hasInk e.desc

/-- Go `strings.Join(lines, "\n")`. -/
def joinLines : List Str → Str
  | [] => []
  | [l] => l
  | l :: rest => l ++ '\n' :: joinLines rest

/-- The trimmed text of the line that ends an event stream. -/
def doneLine : Str := "data: [DONE]".toList

/-- The line ends the stream: its trimmed text is "data: [DONE]". -/
def isDoneLine (raw : Str) : Bool := TrimSpace raw = doneLine

/-- A line the line loop passes over: blank after trimming, or not starting with
"data: " after trimming, or a data line whose payload is not "[DONE]" and which
`unmarshal` does not decode. -/
def isSkippedLine (unmarshal : Str → Option StreamResponse) (raw : Str) : Prop :=
  TrimSpace raw = [] ∨
  HasPrefix (TrimSpace raw) dataMarker = false ∨
  (HasPrefix (TrimSpace raw) dataMarker = true ∧
    TrimPrefix (TrimSpace raw) dataMarker ≠ donePayload ∧
    unmarshal (TrimPrefix (TrimSpace raw) dataMarker) = none)

/-- The chunk of an event: the delta content of its first choice, when the
event has a choice and that content is not empty. -/
def chunkOf (r : StreamResponse) : Option Str :=
  match r.Choices with
  | [] => none
  | first :: _ => if first.Delta.Content = [] then none else some first.Delta.Content

/-- The events among what the channels delivered, in order. -/
def responsesOf : List Received → List StreamResponse
  | [] => []
  | Received.response r :: rest => r :: responsesOf rest
  | _ :: rest => responsesOf rest

/-- A delivery that is an event or a receive from the closed, empty error
channel. -/
def isQuiet : Received → Bool
  | Received.response _ => true
  | Received.error none => true
  | _ => false

instance (s : Str) : Decidable (hasInk s) :=
  inferInstanceAs (Decidable (∃ c ∈ s, isSpace c = false))

instance (raw : Str) : Decidable (yieldsCandidate raw) :=
  inferInstanceAs (Decidable
    ((2 ≤ (Split (stripPrefixes (TrimSpace raw)) " - ".toList).length ∧
      isValidVariableName
        (TrimSpace ((Split (stripPrefixes (TrimSpace raw)) " - ".toList).headD [])) = true) ∨
    isValidVariableName (stripPrefixes (TrimSpace raw)) = true))

instance (raw : Str) : Decidable (yieldsCandidateUntrimmed raw) :=
  inferInstanceAs (Decidable
    ((2 ≤ (Split (stripPrefixes (TrimSpace raw)) " - ".toList).length ∧
      isValidVariableName
        ((Split (stripPrefixes (TrimSpace raw)) " - ".toList).headD []) = true) ∨
    isValidVariableName (stripPrefixes (TrimSpace raw)) = true))

/-! ## Sample data -/

/-- A blank line of 70000 spaces. -/
def longBlankLine : Str := List.replicate 70000 ' '

/-- A line whose name is followed by two spaces before the dash. -/
def looseLine : Str := "foo  - bar".toList


/-- Two entries with the same name: "1. fooBar - desc" and "- fooBar - again". -/
def sampleEntries : List Entry :=
  [{ pre := "1. ".toList, name := "fooBar".toList, desc := "desc".toList },
   { pre := "- ".toList, name := "fooBar".toList, desc := "again".toList }]

/-- A response text without any candidate line. -/
def sampleProse : Str := "hello world\nfoo bar".toList

/-- A decoder that fails on the payload "bad" and otherwise returns an event
whose single choice carries the payload as delta content. -/
def sampleUnmarshal (data : Str) : Option StreamResponse :=
  if data = "bad".toList then none
  else some { ID := [], Object := [], Created := 0, Model := [],
              Choices := [{ Index := 0, Delta := { Content := data }, FinishReason := none }] }

/-- Body lines with an event, the end marker, and an event after it. -/
def sampleLines : List Str :=
  ["data: a".toList, "  data: [DONE] ".toList, "data: b".toList]

/-- An event with the given delta content in its only choice. -/
def sampleEvent (content : Str) : StreamResponse :=
  { ID := [], Object := [], Created := 0, Model := [],
    Choices := [{ Index := 0, Delta := { Content := content }, FinishReason := none }] }

/-- An event without choices. -/
def emptyEvent : StreamResponse :=
  { ID := [], Object := [], Created := 0, Model := [], Choices := [] }

/-- Deliveries: two chunks, an event without choices, an event with empty
content and a receive from the closed error channel. -/
def sampleTrace : List Received :=
  [Received.response (sampleEvent "foo".toList), Received.response emptyEvent,
   Received.error none, Received.response (sampleEvent []),
   Received.response (sampleEvent "Bar - x".toList)]

/-- A buffered response whose first choice carries "fooBar - x". -/
def sampleChat : ChatResponse :=
  { ID := [], Object := [], Created := 0, Model := [],
    Choices := [{ Index := 0,
                  Message := { Role := "assistant".toList, Content := "fooBar - x".toList } }] }

/-- A nine-byte key, "abcdefghi". -/
def nineByteKey : Bytes := [97, 98, 99, 100, 101, 102, 103, 104, 105]

/-! ## Characters and bytes -/

theorem char_le_iff (a b : Char) : a ≤ b ↔ a.toNat ≤ b.toNat := Iff.rfl

theorem uint8_le_iff (a b : UInt8) : a ≤ b ↔ a.toNat ≤ b.toNat := Iff.rfl

theorem uint32_le_iff (a b : UInt32) : a ≤ b ↔ a.toNat ≤ b.toNat := Iff.rfl

theorem toUInt8_toNat_of_lt (c : Char) (h : c.toNat < 256) : c.toUInt8.toNat = c.toNat := by
  show (c.val.toNat.toUInt8).toNat = c.val.toNat
  simp [Nat.toUInt8, UInt8.ofNat, UInt8.toNat]
  exact h

theorem utf8EncodeChar_ascii (c : Char) (h : c.toNat ≤ 127) :
    String.utf8EncodeChar c = [c.toUInt8] := by
  have hv : c.val ≤ 0x7f := (uint32_le_iff _ _).2 h
  simp [String.utf8EncodeChar, hv, Char.toUInt8]

theorem utf8Size_ascii (c : Char) (h : c.toNat ≤ 127) : c.utf8Size = 1 := by
  have hv : c.val ≤ 0x7f := (uint32_le_iff _ _).2 h
  simp [Char.utf8Size, hv]

theorem allowedRune_iff (c : Char) : allowedRune c = true ↔ isNameChar c := by
  simp only [allowedRune, isNameChar, isAsciiLetter, isAsciiDigit, Bool.or_eq_true,
    Bool.and_eq_true, decide_eq_true_eq]
  tauto

theorem isNameChar_ascii (c : Char) (h : isNameChar c) : c.toNat ≤ 127 := by
  rcases h with (⟨_, h⟩ | ⟨_, h⟩) | ⟨_, h⟩ | h | h
  · have := (char_le_iff _ _).1 h
    have e : 'z'.toNat = 122 := by decide
    omega
  · have := (char_le_iff _ _).1 h
    have e : 'Z'.toNat = 90 := by decide
    omega
  · have := (char_le_iff _ _).1 h
    have e : '9'.toNat = 57 := by decide
    omega
  · subst h; decide
  · subst h; decide

theorem runesAllowed_iff (name : Str) :
    runesAllowed name = true ↔ ∀ c ∈ name, isNameChar c := by
  induction name with
  | nil => simp [runesAllowed]
  | cons c cs ih =>
    by_cases hc : allowedRune c = true
    · simp [runesAllowed, hc, ih, ← allowedRune_iff]
    · have hc2 : allowedRune c = false := by simpa using hc
      simp [runesAllowed, hc2, ← allowedRune_iff]

theorem goLen_of_nameChars (name : Str) (h : ∀ c ∈ name, isNameChar c) :
    goLen name = name.length := by
  induction name with
  | nil => rfl
  | cons c cs ih =>
    have hc : isNameChar c := h c (List.mem_cons_self _ _)
    have hcs : ∀ d ∈ cs, isNameChar d := fun d hd => h d (List.mem_cons_of_mem _ hd)
    simp [goLen, utf8Size_ascii c (isNameChar_ascii c hc), ih hcs]
    omega

theorem firstByte_digit_iff (c : Char) (rest : Str) (hc : isNameChar c) :
    ('0'.toUInt8 ≤ firstByte (c :: rest) ∧ firstByte (c :: rest) ≤ '9'.toUInt8) ↔
      isAsciiDigit c := by
  have h127 := isNameChar_ascii c hc
  have hb : (firstByte (c :: rest)).toNat = c.toNat := by
    simp only [firstByte, utf8EncodeChar_ascii c h127, List.headD_cons]
    exact toUInt8_toNat_of_lt c (by omega)
  have e0 : ('0'.toUInt8).toNat = '0'.toNat := by decide
  have e9 : ('9'.toUInt8).toNat = '9'.toNat := by decide
  rw [uint8_le_iff, uint8_le_iff, hb, e0, e9]
  exact Iff.rfl

theorem isValidVariableName_iff (name : Str) :
    isValidVariableName name = true ↔
      name ≠ [] ∧ (∀ c ∈ name, isNameChar c) ∧ ¬ startsWithDigit name ∧ name.length ≤ 50 := by
  cases name with
  | nil => simp [isValidVariableName]
  | cons c rest =>
    by_cases hall : ∀ d ∈ c :: rest, isNameChar d
    · have hc : isNameChar c := hall c (List.mem_cons_self _ _)
      have hr : runesAllowed (c :: rest) = true := (runesAllowed_iff _).2 hall
      have hlen := goLen_of_nameChars _ hall
      have hd := firstByte_digit_iff c rest hc
      have hs : startsWithDigit (c :: rest) ↔ isAsciiDigit c := by
        constructor
        · rintro ⟨c2, r2, he, hdig⟩
          cases he
          exact hdig
        · intro hdig
          exact ⟨c, rest, rfl, hdig⟩
      by_cases hdig : isAsciiDigit c
      · have hd2 := hd.2 hdig
        simp [isValidVariableName, hr, hd2.1, hd2.2, hs, hdig]
      · have hd2 : ¬ ('0'.toUInt8 ≤ firstByte (c :: rest) ∧
            firstByte (c :: rest) ≤ '9'.toUInt8) := fun h => hdig (hd.1 h)
        simp only [isValidVariableName, hr, hlen]
        simp only [hs, hdig, not_false_eq_true, true_and, ne_eq, reduceCtorEq]
        have hall2 : (∀ d ∈ c :: rest, isNameChar d) ↔ True := iff_true_intro hall
        rw [hall2]
        by_cases h1 : '0'.toUInt8 ≤ firstByte (c :: rest)
        · have h2 : ¬ firstByte (c :: rest) ≤ '9'.toUInt8 := fun h => hd2 ⟨h1, h⟩
          simp [h1, h2]
        · simp [h1]
    · have hr : runesAllowed (c :: rest) = false := by
        cases h : runesAllowed (c :: rest) with
        | false => rfl
        | true => exact absurd ((runesAllowed_iff _).1 h) hall
      have hl : isValidVariableName (c :: rest) = false := by
        simp [isValidVariableName, hr]
      rw [hl]
      constructor
      · intro h
        cases h
      · rintro ⟨_, h, _⟩
        exact absurd h hall

/-! ## White space and trimming -/

theorem isNameChar_toNat (c : Char) (h : isNameChar c) :
    (97 ≤ c.toNat ∧ c.toNat ≤ 122) ∨ (65 ≤ c.toNat ∧ c.toNat ≤ 90) ∨
    (48 ≤ c.toNat ∧ c.toNat ≤ 57) ∨ c.toNat = 95 ∨ c.toNat = 45 := by
  rcases h with (⟨h1, h2⟩ | ⟨h1, h2⟩) | ⟨h1, h2⟩ | h | h
  · exact Or.inl ⟨(char_le_iff _ _).1 h1, (char_le_iff _ _).1 h2⟩
  · exact Or.inr (Or.inl ⟨(char_le_iff _ _).1 h1, (char_le_iff _ _).1 h2⟩)
  · exact Or.inr (Or.inr (Or.inl ⟨(char_le_iff _ _).1 h1, (char_le_iff _ _).1 h2⟩))
  · subst h
    exact Or.inr (Or.inr (Or.inr (Or.inl (by decide))))
  · subst h
    exact Or.inr (Or.inr (Or.inr (Or.inr (by decide))))

theorem isSpace_eq_false_of_toNat (c : Char)
    (h : (33 ≤ c.toNat ∧ c.toNat ≤ 126) ∨ c.toNat = 0x2022) : isSpace c = false := by
  simp only [isSpace, Bool.or_eq_false_iff, Bool.and_eq_false_iff, decide_eq_false_iff_not]
  omega

theorem isSpace_nameChar (c : Char) (h : isNameChar c) : isSpace c = false := by
  apply isSpace_eq_false_of_toNat
  have := isNameChar_toNat c h
  omega

theorem dropWhile_cons_of_false {p : Char → Bool} (c : Char) (s : Str) (h : p c = false) :
    (c :: s).dropWhile p = c :: s := by
  simp [List.dropWhile, h]

theorem dropWhile_append_of_mem {p : Char → Bool} (a b : Str) (h : ∃ x ∈ a, p x = false) :
    (a ++ b).dropWhile p = a.dropWhile p ++ b := by
  induction a with
  | nil =>
    obtain ⟨x, hx, _⟩ := h
    cases hx
  | cons c cs ih =>
    cases hc : p c with
    | false => simp [List.dropWhile, hc]
    | true =>
      have h2 : ∃ x ∈ cs, p x = false := by
        obtain ⟨x, hx, hpx⟩ := h
        rcases List.mem_cons.1 hx with h1 | h1
        · subst h1
          rw [hc] at hpx
          cases hpx
        · exact ⟨x, h1, hpx⟩
      simp [List.dropWhile, hc, ih h2]

theorem mem_dropWhile_of_false {p : Char → Bool} (s : Str) (x : Char) (hx : x ∈ s)
    (hp : p x = false) : x ∈ s.dropWhile p := by
  induction s with
  | nil => cases hx
  | cons c cs ih =>
    cases hc : p c with
    | false =>
      rw [dropWhile_cons_of_false c cs hc]
      exact hx
    | true =>
      rcases List.mem_cons.1 hx with h1 | h1
      · subst h1
        rw [hc] at hp
        cases hp
      · simp only [List.dropWhile, hc]
        exact ih h1

/-- The trailing trim that `TrimSpace` performs. -/
theorem TrimSpace_of_head (c : Char) (s : Str) (h : isSpace c = false) :
    TrimSpace (c :: s) = (((c :: s).reverse).dropWhile isSpace).reverse := by
  simp only [TrimSpace, dropWhile_cons_of_false c s h]

theorem TrimSpace_ne_nil (s : Str) (h : hasInk s) : TrimSpace s ≠ [] := by
  obtain ⟨x, hx, hp⟩ := h
  have h1 : x ∈ s.dropWhile isSpace := mem_dropWhile_of_false s x hx hp
  have h2 : x ∈ ((s.dropWhile isSpace).reverse).dropWhile isSpace :=
    mem_dropWhile_of_false _ x (List.mem_reverse.2 h1) hp
  intro he
  have h3 : x ∈ TrimSpace s := List.mem_reverse.2 h2
  rw [he] at h3
  cases h3

theorem TrimSpace_head_append (c : Char) (a d : Str) (hc : isSpace c = false)
    (hd : hasInk d) :
    TrimSpace (c :: a ++ d) = c :: a ++ ((d.reverse).dropWhile isSpace).reverse := by
  have e : c :: a ++ d = c :: (a ++ d) := rfl
  rw [e, TrimSpace_of_head c (a ++ d) hc]
  have hr : (c :: (a ++ d)).reverse = d.reverse ++ (c :: a).reverse := by
    simp
  rw [hr]
  have hd2 : ∃ x ∈ d.reverse, isSpace x = false := by
    obtain ⟨x, hx, hp⟩ := hd
    exact ⟨x, List.mem_reverse.2 hx, hp⟩
  rw [dropWhile_append_of_mem _ _ hd2]
  simp

theorem TrimSpace_of_no_space (s : Str) (h : ∀ c ∈ s, isSpace c = false) : TrimSpace s = s := by
  have h1 : ∀ l : Str, (∀ c ∈ l, isSpace c = false) → l.dropWhile isSpace = l := by
    intro l hl
    cases l with
    | nil => rfl
    | cons c cs => exact dropWhile_cons_of_false c cs (hl c (List.mem_cons_self _ _))
  have h2 : ∀ c ∈ s.reverse, isSpace c = false := fun c hc => h c (List.mem_reverse.1 hc)
  simp only [TrimSpace, h1 s h, h1 _ h2, List.reverse_reverse]

/-! ## Splitting and replacing -/

theorem replaceScan_newline (s : Str) :
    replaceScan "\n".toList " ".toList 0 s = newlinesToSpaces s := by
  induction s with
  | nil => rfl
  | cons c cs ih =>
    by_cases hc : c = '\n'
    · subst hc
      simp only [replaceScan, newlinesToSpaces, List.map_cons, if_true]
      have : List.isPrefixOf "\n".toList ('\n' :: cs) = true := by
        simp [String.toList, List.isPrefixOf]
      rw [if_pos this]
      have e : "\n".toList.length - 1 = 0 := by decide
      rw [e, ih]
      rfl
    · have : List.isPrefixOf "\n".toList (c :: cs) = false := by
        simp [String.toList, List.isPrefixOf]
        exact fun h => hc h.symm
      simp only [replaceScan, newlinesToSpaces, List.map_cons, if_neg hc, this, ih]
      simp [newlinesToSpaces]

theorem hasInk_newlinesToSpaces (s : Str) (h : hasInk s) : hasInk (newlinesToSpaces s) := by
  obtain ⟨x, hx, hp⟩ := h
  refine ⟨x, ?_, hp⟩
  have hne : x ≠ '\n' := by
    intro he
    subst he
    revert hp
    decide
  have : (fun c => if c = '\n' then ' ' else c) x = x := by simp [hne]
  rw [← this]
  exact List.mem_map_of_mem _ hx

theorem splitScan_ne_nil (sep : Str) (skip : Nat) (s : Str) : splitScan sep skip s ≠ [] := by
  induction s generalizing skip with
  | nil => simp [splitScan]
  | cons c cs ih =>
    cases skip with
    | succ k =>
      simp only [splitScan]
      exact ih k
    | zero =>
      simp only [splitScan]
      split
      · simp
      · split <;> simp

theorem splitScan_cons_of_no_match (sep : Str) (c : Char) (cs : Str)
    (h : sep.isPrefixOf (c :: cs) = false) :
    splitScan sep 0 (c :: cs) =
      (c :: (splitScan sep 0 cs).headD []) :: (splitScan sep 0 cs).tail := by
  simp only [splitScan, h]
  cases hs : splitScan sep 0 cs with
  | nil => exact absurd hs (splitScan_ne_nil sep 0 cs)
  | cons p ps => simp

theorem splitScan_newline_line (l rest : Str) (h : '\n' ∉ l) :
    splitScan "\n".toList 0 (l ++ '\n' :: rest) = l :: splitScan "\n".toList 0 rest := by
  induction l with
  | nil =>
    have : List.isPrefixOf "\n".toList ('\n' :: rest) = true := by
      simp [String.toList, List.isPrefixOf]
    simp only [List.nil_append, splitScan, this, if_true]
    rfl
  | cons c cs ih =>
    have hc : c ≠ '\n' := fun e => h (e ▸ List.mem_cons_self _ _)
    have hcs : '\n' ∉ cs := fun e => h (List.mem_cons_of_mem _ e)
    have : List.isPrefixOf "\n".toList (c :: (cs ++ '\n' :: rest)) = false := by
      simp [String.toList, List.isPrefixOf]
      exact fun e => hc e.symm
    rw [List.cons_append, splitScan_cons_of_no_match _ _ _ this, ih hcs]
    rfl

theorem splitScan_newline_last (l : Str) (h : '\n' ∉ l) :
    splitScan "\n".toList 0 l = [l] := by
  induction l with
  | nil => rfl
  | cons c cs ih =>
    have hc : c ≠ '\n' := fun e => h (e ▸ List.mem_cons_self _ _)
    have hcs : '\n' ∉ cs := fun e => h (List.mem_cons_of_mem _ e)
    have : List.isPrefixOf "\n".toList (c :: cs) = false := by
      simp [String.toList, List.isPrefixOf]
      exact fun e => hc e.symm
    rw [splitScan_cons_of_no_match _ _ _ this, ih hcs]
    rfl

theorem Split_joinLines (lines : List Str) (hne : lines ≠ [])
    (h : ∀ l ∈ lines, '\n' ∉ l) : Split (joinLines lines) "\n".toList = lines := by
  induction lines with
  | nil => exact absurd rfl hne
  | cons l rest ih =>
    have hl : '\n' ∉ l := h l (List.mem_cons_self _ _)
    cases rest with
    | nil => exact splitScan_newline_last l hl
    | cons l2 rest2 =>
      have hrest : ∀ x ∈ l2 :: rest2, '\n' ∉ x := fun x hx => h x (List.mem_cons_of_mem _ hx)
      have := ih (by simp) hrest
      simp only [Split] at this ⊢
      simp only [joinLines]
      rw [splitScan_newline_line l _ hl, this]

theorem splitScan_dash (n t : Str) (h : ' ' ∉ n) :
    splitScan " - ".toList 0 (n ++ " - ".toList ++ t) = n :: splitScan " - ".toList 0 t := by
  induction n with
  | nil =>
    have : List.isPrefixOf " - ".toList (' ' :: '-' :: ' ' :: t) = true := by
      simp [String.toList, List.isPrefixOf]
    show splitScan " - ".toList 0 (' ' :: '-' :: ' ' :: t) = _
    simp only [splitScan, this, if_true]
  | cons c cs ih =>
    have hc : c ≠ ' ' := fun e => h (e ▸ List.mem_cons_self _ _)
    have hcs : ' ' ∉ cs := fun e => h (List.mem_cons_of_mem _ e)
    have : List.isPrefixOf " - ".toList (c :: (cs ++ " - ".toList ++ t)) = false := by
      simp [String.toList, List.isPrefixOf]
      intro e
      exact absurd e.symm hc
    have e : c :: cs ++ " - ".toList ++ t = c :: (cs ++ " - ".toList ++ t) := rfl
    rw [e, splitScan_cons_of_no_match _ _ _ this, ih hcs]
    rfl

/-! ## The parser -/

theorem parseLine_eq (results : List Str) (raw : Str) :
    parseLine results raw = results ++ (lineCandidate raw).toList := by
  unfold parseLine lineCandidate
  by_cases h1 : TrimSpace raw = []
  · simp [h1]
  · simp only [h1, if_false]
    split
    · split <;> simp
    · split <;> simp

theorem foldl_parseLine (lines : List Str) (acc : List Str) :
    lines.foldl parseLine acc = acc ++ lines.filterMap lineCandidate := by
  induction lines generalizing acc with
  | nil => simp
  | cons l rest ih =>
    rw [List.foldl_cons, ih, parseLine_eq]
    cases h : lineCandidate l <;> simp [List.filterMap_cons, h]

theorem parseResponse_eq (content : Str) :
    parseResponse content =
      if (Split content "\n".toList).filterMap lineCandidate = [] then
        (if TrimSpace (newlinesToSpaces content) = [] then []
         else [TrimSpace (newlinesToSpaces content)])
      else (Split content "\n".toList).filterMap lineCandidate := by
  unfold parseResponse
  simp only [foldl_parseLine, List.nil_append, ReplaceAll, replaceScan_newline,
    List.length_eq_zero]
  by_cases h : (Split content "\n".toList).filterMap lineCandidate = []
  · simp only [h, if_true]
    by_cases h2 : TrimSpace (newlinesToSpaces content) = []
    · simp [h2]
    · simp [h2]
  · simp only [h, if_false]

theorem lineCandidate_none (raw : Str) (h : ¬ yieldsCandidate raw) : lineCandidate raw = none := by
  unfold yieldsCandidate at h
  unfold lineCandidate
  by_cases h1 : TrimSpace raw = []
  · simp [h1]
  · simp only [h1, if_false]
    by_cases h2 : 2 ≤ (Split (stripPrefixes (TrimSpace raw)) " - ".toList).length
    · have h3 : isValidVariableName
          (TrimSpace ((Split (stripPrefixes (TrimSpace raw)) " - ".toList).headD [])) = false := by
        cases hv : isValidVariableName
          (TrimSpace ((Split (stripPrefixes (TrimSpace raw)) " - ".toList).headD [])) with
        | false => rfl
        | true => exact absurd (Or.inl ⟨h2, hv⟩) h
      rw [if_pos h2, h3]
      simp only [Bool.and_false, Bool.false_eq_true, if_false]
    · have h3 : isValidVariableName (stripPrefixes (TrimSpace raw)) = false := by
        cases hv : isValidVariableName (stripPrefixes (TrimSpace raw)) with
        | false => rfl
        | true => exact absurd (Or.inr hv) h
      rw [if_neg h2, h3]
      simp only [Bool.false_eq_true, if_false]

theorem filterMap_lineCandidate_nil (lines : List Str) (h : ∀ l ∈ lines, ¬ yieldsCandidate l) :
    lines.filterMap lineCandidate = [] := by
  induction lines with
  | nil => rfl
  | cons l rest ih =>
    have h1 := lineCandidate_none l (h l (List.mem_cons_self _ _))
    have h2 := ih (fun x hx => h x (List.mem_cons_of_mem _ hx))
    simp [List.filterMap_cons, h1, h2]

/-! ## Well-formed lines -/

theorem letter_toNat (c : Char) (h : isAsciiLetter c) :
    (97 ≤ c.toNat ∧ c.toNat ≤ 122) ∨ (65 ≤ c.toNat ∧ c.toNat ≤ 90) := by
  rcases h with ⟨h1, h2⟩ | ⟨h1, h2⟩
  · exact Or.inl ⟨(char_le_iff _ _).1 h1, (char_le_iff _ _).1 h2⟩
  · exact Or.inr ⟨(char_le_iff _ _).1 h1, (char_le_iff _ _).1 h2⟩

theorem letter_ne (c d : Char) (hc : isAsciiLetter c)
    (hd : d.toNat < 65 ∨ 122 < d.toNat) : d ≠ c := by
  intro e
  subst e
  have := letter_toNat d hc
  omega

theorem numberPrefix_values :
    numberPrefix 1 = ['1', '.', ' '] ∧ numberPrefix 2 = ['2', '.', ' '] ∧
    numberPrefix 3 = ['3', '.', ' '] ∧ numberPrefix 4 = ['4', '.', ' '] ∧
    numberPrefix 5 = ['5', '.', ' '] ∧ numberPrefix 6 = ['6', '.', ' '] ∧
    numberPrefix 7 = ['7', '.', ' '] ∧ numberPrefix 8 = ['8', '.', ' '] ∧
    numberPrefix 9 = ['9', '.', ' '] ∧ numberPrefix 10 = ['1', '0', '.', ' '] := by
  decide

theorem stripNumberPrefix_letter (c : Char) (t : Str) (hc : isAsciiLetter c) :
    stripNumberPrefix (c :: t) (List.range' 1 10) = c :: t := by
  obtain ⟨e1, e2, e3, e4, e5, e6, e7, e8, e9, e10⟩ := numberPrefix_values
  have n1 := letter_ne c '1' hc (by decide)
  have n2 := letter_ne c '2' hc (by decide)
  have n3 := letter_ne c '3' hc (by decide)
  have n4 := letter_ne c '4' hc (by decide)
  have n5 := letter_ne c '5' hc (by decide)
  have n6 := letter_ne c '6' hc (by decide)
  have n7 := letter_ne c '7' hc (by decide)
  have n8 := letter_ne c '8' hc (by decide)
  have n9 := letter_ne c '9' hc (by decide)
  have hr : List.range' 1 10 = [1, 2, 3, 4, 5, 6, 7, 8, 9, 10] := by decide
  rw [hr]
  simp only [stripNumberPrefix, e1, e2, e3, e4, e5, e6, e7, e8, e9, e10]
  simp [HasPrefix, List.isPrefixOf, n1, n2, n3, n4, n5, n6, n7, n8, n9]

theorem trimBullets_letter (c : Char) (t : Str) (hc : isAsciiLetter c) :
    TrimPrefix (TrimPrefix (c :: t) "- ".toList) "• ".toList = c :: t := by
  have n1 := letter_ne c '-' hc (by decide)
  have n2 := letter_ne c '•' hc (by decide)
  have h1 : HasPrefix (c :: t) "- ".toList = false := by
    simp [HasPrefix, String.toList, List.isPrefixOf, n1]
  have h2 : HasPrefix (c :: t) "• ".toList = false := by
    simp [HasPrefix, String.toList, List.isPrefixOf, n2]
  simp only [TrimPrefix, h1, h2, Bool.false_eq_true, if_false]

theorem stripPrefixes_letter (c : Char) (t : Str) (hc : isAsciiLetter c) :
    stripPrefixes (c :: t) = c :: t := by
  rw [stripPrefixes, trimBullets_letter c t hc, stripNumberPrefix_letter c t hc]

theorem stripPrefixes_number (k : Nat) (h1 : 1 ≤ k) (h2 : k ≤ 10) (c : Char) (t : Str)
    : stripPrefixes (numberPrefix k ++ c :: t) = c :: t := by
  obtain ⟨e1, e2, e3, e4, e5, e6, e7, e8, e9, e10⟩ := numberPrefix_values
  have hr : List.range' 1 10 = [1, 2, 3, 4, 5, 6, 7, 8, 9, 10] := by decide
  have hd : "- ".toList = ['-', ' '] := rfl
  have hb : "• ".toList = ['•', ' '] := rfl
  rw [stripPrefixes, hr, hd, hb]
  interval_cases k <;>
    simp only [stripNumberPrefix, e1, e2, e3, e4, e5, e6, e7, e8, e9, e10] <;>
    simp [TrimPrefix, HasPrefix, List.isPrefixOf]

theorem stripPrefixes_entry (p : Str) (hp : isLinePrefix p) (c : Char) (t : Str)
    (hc : isAsciiLetter c) : stripPrefixes (p ++ c :: t) = c :: t := by
  rcases hp with h | h | h | ⟨k, h1, h2, h⟩
  · subst h
    exact stripPrefixes_letter c t hc
  · subst h
    have e : TrimPrefix ("- ".toList ++ c :: t) "- ".toList = c :: t := by
      simp [TrimPrefix, HasPrefix, String.toList, List.isPrefixOf]
    have n2 := letter_ne c '•' hc (by decide)
    have h2 : HasPrefix (c :: t) "• ".toList = false := by
      simp [HasPrefix, String.toList, List.isPrefixOf, n2]
    rw [stripPrefixes, e, TrimPrefix, h2]
    exact stripNumberPrefix_letter c t hc
  · subst h
    have e : TrimPrefix ("• ".toList ++ c :: t) "- ".toList = "• ".toList ++ c :: t := by
      simp [TrimPrefix, HasPrefix, String.toList, List.isPrefixOf]
    have e2 : TrimPrefix ("• ".toList ++ c :: t) "• ".toList = c :: t := by
      simp [TrimPrefix, HasPrefix, String.toList, List.isPrefixOf]
    rw [stripPrefixes, e, e2]
    exact stripNumberPrefix_letter c t hc
  · subst h
    exact stripPrefixes_number k h1 h2 c t

/-- A recognised prefix followed by a letter starts with a character that is
not white space. -/
theorem entry_head (p : Str) (hp : isLinePrefix p) (c : Char) (t : Str)
    (hc : isAsciiLetter c) :
    ∃ c0 a, p ++ c :: t = c0 :: a ∧ isSpace c0 = false := by
  obtain ⟨e1, e2, e3, e4, e5, e6, e7, e8, e9, e10⟩ := numberPrefix_values
  rcases hp with h | h | h | ⟨k, h1, h2, h⟩
  · subst h
    refine ⟨c, t, rfl, isSpace_eq_false_of_toNat c (Or.inl ?_)⟩
    have := letter_toNat c hc
    omega
  · subst h
    exact ⟨'-', ' ' :: c :: t, rfl, by decide⟩
  · subst h
    exact ⟨'•', ' ' :: c :: t, rfl, by decide⟩
  · subst h
    interval_cases k
    · exact ⟨'1', _, by rw [e1]; rfl, by decide⟩
    · exact ⟨'2', _, by rw [e2]; rfl, by decide⟩
    · exact ⟨'3', _, by rw [e3]; rfl, by decide⟩
    · exact ⟨'4', _, by rw [e4]; rfl, by decide⟩
    · exact ⟨'5', _, by rw [e5]; rfl, by decide⟩
    · exact ⟨'6', _, by rw [e6]; rfl, by decide⟩
    · exact ⟨'7', _, by rw [e7]; rfl, by decide⟩
    · exact ⟨'8', _, by rw [e8]; rfl, by decide⟩
    · exact ⟨'9', _, by rw [e9]; rfl, by decide⟩
    · exact ⟨'1', _, by rw [e10]; rfl, by decide⟩

theorem linePrefix_no_newline (p : Str) (hp : isLinePrefix p) : '\n' ∉ p := by
  obtain ⟨e1, e2, e3, e4, e5, e6, e7, e8, e9, e10⟩ := numberPrefix_values
  rcases hp with h | h | h | ⟨k, h1, h2, h⟩
  · subst h
    simp
  · subst h
    decide
  · subst h
    decide
  · subst h
    interval_cases k
    · rw [e1]; decide
    · rw [e2]; decide
    · rw [e3]; decide
    · rw [e4]; decide
    · rw [e5]; decide
    · rw [e6]; decide
    · rw [e7]; decide
    · rw [e8]; decide
    · rw [e9]; decide
    · rw [e10]; decide

theorem nameChars_no (x : Char) (hx : isSpace x = true) (n : Str)
    (hn : ∀ c ∈ n, isNameChar c) : x ∉ n := by
  intro hm
  have := isSpace_nameChar x (hn x hm)
  rw [hx] at this
  cases this

theorem lineCandidate_entry (e : Entry) (h : e.wellFormed) :
    lineCandidate e.line = some e.name := by
  obtain ⟨hp, hv, ⟨c, rest, hname, hc⟩, _, hink⟩ := h
  have hvalid := (isValidVariableName_iff e.name).1 hv
  have hchars : ∀ x ∈ e.name, isNameChar x := hvalid.2.1
  have hnosp : ' ' ∉ e.name := nameChars_no ' ' (by decide) e.name hchars
  -- the line, trimmed
  obtain ⟨c0, a, ha, hc0⟩ := entry_head e.pre hp c (rest ++ " - ".toList) hc
  have hline : e.line = c0 :: a ++ e.desc := by
    rw [← ha, Entry.line, hname]
    simp
  have htrim : TrimSpace e.line =
      e.pre ++ c :: (rest ++ " - ".toList ++ ((e.desc.reverse).dropWhile isSpace).reverse) := by
    rw [hline, TrimSpace_head_append c0 a e.desc hc0 hink, ← ha]
    simp
  have hstrip : stripPrefixes (TrimSpace e.line) =
      e.name ++ " - ".toList ++ ((e.desc.reverse).dropWhile isSpace).reverse := by
    rw [htrim, stripPrefixes_entry e.pre hp c _ hc, hname]
    simp
  have hsplit : Split (stripPrefixes (TrimSpace e.line)) " - ".toList =
      e.name :: splitScan " - ".toList 0 (((e.desc.reverse).dropWhile isSpace).reverse) := by
    rw [hstrip, Split, splitScan_dash _ _ hnosp]
  have hne : TrimSpace e.line ≠ [] := by
    rw [htrim]
    cases e.pre <;> simp
  have hlen : (Split (stripPrefixes (TrimSpace e.line)) " - ".toList).length ≥ 2 := by
    rw [hsplit]
    cases hs : splitScan " - ".toList 0 (((e.desc.reverse).dropWhile isSpace).reverse) with
    | nil => exact absurd hs (splitScan_ne_nil _ _ _)
    | cons q qs => simp
  have hhead : TrimSpace ((Split (stripPrefixes (TrimSpace e.line)) " - ".toList).headD []) =
      e.name := by
    rw [hsplit, List.headD_cons]
    exact TrimSpace_of_no_space _ (fun x hx => isSpace_nameChar x (hchars x hx))
  unfold lineCandidate
  rw [if_neg hne, if_pos hlen, hhead, hv]
  have hnn : e.name ≠ [] := hvalid.1
  simp [hnn]

theorem filterMap_lineCandidate_entries (entries : List Entry)
    (h : ∀ e ∈ entries, e.wellFormed) :
    (entries.map Entry.line).filterMap lineCandidate = entries.map Entry.name := by
  induction entries with
  | nil => rfl
  | cons e rest ih =>
    have h1 := lineCandidate_entry e (h e (List.mem_cons_self _ _))
    have h2 := ih (fun x hx => h x (List.mem_cons_of_mem _ hx))
    simp only [List.map_cons, List.filterMap_cons, h1, h2]

theorem entry_line_no_newline (e : Entry) (h : e.wellFormed) : '\n' ∉ e.line := by
  obtain ⟨hp, hv, _, hd, _⟩ := h
  have hchars : ∀ x ∈ e.name, isNameChar x := ((isValidVariableName_iff e.name).1 hv).2.1
  have h1 := linePrefix_no_newline e.pre hp
  have h2 := nameChars_no '\n' (by decide) e.name hchars
  have h3 : '\n' ∉ " - ".toList := by decide
  simp only [Entry.line, List.mem_append, not_or]
  exact ⟨⟨⟨h1, h2⟩, h3⟩, hd⟩

/-! ## The line loop of ChatStream -/

theorem goLen_replicate_space (n : Nat) : goLen (List.replicate n ' ') = n := by
  induction n with
  | zero => rfl
  | succ k ih =>
    have e : (' ' : Char).utf8Size = 1 := by decide
    rw [List.replicate_succ, goLen, ih, e]
    omega

theorem TrimSpace_of_all_space (s : Str) (h : ∀ c ∈ s, isSpace c = true) : TrimSpace s = [] := by
  have h1 : s.dropWhile isSpace = [] := List.dropWhile_eq_nil_iff.2 h
  simp [TrimSpace, h1]

theorem TrimSpace_append_cr (t : Str) : TrimSpace (t ++ ['\r']) = TrimSpace t := by
  have hcr : isSpace '\r' = true := by decide
  by_cases h : ∀ c ∈ t, isSpace c = true
  · rw [TrimSpace_of_all_space t h]
    apply TrimSpace_of_all_space
    intro c hc
    rcases List.mem_append.1 hc with h1 | h1
    · exact h c h1
    · rw [List.mem_singleton.1 h1]
      exact hcr
  · have h2 : ∃ x ∈ t, isSpace x = false := by
      by_contra hne
      apply h
      intro c hc
      cases hs : isSpace c with
      | true => rfl
      | false => exact absurd ⟨c, hc, hs⟩ hne
    simp only [TrimSpace, dropWhile_append_of_mem t ['\r'] h2, List.reverse_append,
      List.reverse_cons, List.reverse_nil, List.nil_append, List.singleton_append,
      List.dropWhile, hcr]

theorem TrimSpace_dropCR (raw : Str) : TrimSpace (dropCR raw) = TrimSpace raw := by
  unfold dropCR
  by_cases h : raw.getLast? = some '\r'
  · rw [if_pos h]
    have e : raw.dropLast ++ ['\r'] = raw := List.dropLast_append_getLast? '\r' h
    rw [← TrimSpace_append_cr raw.dropLast, e]
  · rw [if_neg h]

theorem lineLoop_cons (unmarshal : Str → Option StreamResponse) (accepts : Nat → Bool)
    (sent : Nat) (raw : Str) (rest : List Str) :
    lineLoop unmarshal accepts sent (raw :: rest) =
      if scanTooLong raw then
        { forwarded := [], decoded := [],
          err := some (ZhvError.readFailed ZhvError.tokenTooLong) }
      else if TrimSpace raw = [] || !(HasPrefix (TrimSpace raw) dataMarker) then
        lineLoop unmarshal accepts sent rest
      else if TrimPrefix (TrimSpace raw) dataMarker = donePayload then
        { forwarded := [], decoded := [], err := none }
      else
        match unmarshal (TrimPrefix (TrimSpace raw) dataMarker) with
        | none =>
          { lineLoop unmarshal accepts sent rest with
            decoded := TrimPrefix (TrimSpace raw) dataMarker ::
              (lineLoop unmarshal accepts sent rest).decoded }
        | some streamResp =>
          if accepts sent then
            { forwarded := streamResp :: (lineLoop unmarshal accepts (sent + 1) rest).forwarded,
              decoded := TrimPrefix (TrimSpace raw) dataMarker ::
                (lineLoop unmarshal accepts (sent + 1) rest).decoded,
              err := (lineLoop unmarshal accepts (sent + 1) rest).err }
          else
            { forwarded := [],
              decoded := [TrimPrefix (TrimSpace raw) dataMarker],
              err := some ZhvError.sendTimeout } := by
  rw [← TrimSpace_dropCR raw]
  rfl

theorem lineLoop_tooLong (unmarshal : Str → Option StreamResponse) (accepts : Nat → Bool)
    (sent : Nat) (raw : Str) (rest : List Str) (h : scanTooLong raw = true) :
    lineLoop unmarshal accepts sent (raw :: rest) =
      { forwarded := [], decoded := [],
        err := some (ZhvError.readFailed ZhvError.tokenTooLong) } := by
  rw [lineLoop_cons, if_pos h]

theorem lineLoop_doneLine (unmarshal : Str → Option StreamResponse) (accepts : Nat → Bool)
    (sent : Nat) (raw : Str) (rest : List Str) (hfit : scanTooLong raw = false)
    (h : TrimSpace raw = doneLine) :
    lineLoop unmarshal accepts sent (raw :: rest) =
      { forwarded := [], decoded := [], err := none } := by
  rw [lineLoop_cons, h, hfit]
  rfl

theorem takeWhile_cons_of_not_done (raw : Str) (rest : List Str) (h : isDoneLine raw = false) :
    (raw :: rest).takeWhile (fun l => !isDoneLine l) =
      raw :: rest.takeWhile (fun l => !isDoneLine l) := by
  simp [List.takeWhile, h]

theorem takeWhile_cons_of_done (raw : Str) (rest : List Str) (h : isDoneLine raw = true) :
    (raw :: rest).takeWhile (fun l => !isDoneLine l) = [] := by
  simp [List.takeWhile, h]

/-- Events forwarded and payloads decoded are those of the lines before the
first end marker, whatever the length of the lines. -/
theorem lineLoop_takeWhile_events (unmarshal : Str → Option StreamResponse)
    (accepts : Nat → Bool) (lines : List Str) (sent : Nat) :
    (lineLoop unmarshal accepts sent lines).forwarded =
      (lineLoop unmarshal accepts sent
        (lines.takeWhile (fun l => !isDoneLine l))).forwarded ∧
    (lineLoop unmarshal accepts sent lines).decoded =
      (lineLoop unmarshal accepts sent
        (lines.takeWhile (fun l => !isDoneLine l))).decoded := by
  induction lines generalizing sent with
  | nil => exact ⟨rfl, rfl⟩
  | cons raw rest ih =>
    cases hd : isDoneLine raw with
    | true =>
      rw [takeWhile_cons_of_done raw rest hd]
      cases hl : scanTooLong raw with
      | true =>
        rw [lineLoop_tooLong _ _ _ _ _ hl]
        exact ⟨rfl, rfl⟩
      | false =>
        have hd2 : TrimSpace raw = doneLine := by simpa [isDoneLine] using hd
        rw [lineLoop_doneLine _ _ _ _ _ hl hd2]
        exact ⟨rfl, rfl⟩
    | false =>
      rw [takeWhile_cons_of_not_done raw rest hd, lineLoop_cons, lineLoop_cons]
      split
      · exact ⟨rfl, rfl⟩
      · split
        · exact ih sent
        · split
          · exact ⟨rfl, rfl⟩
          · split
            · exact ⟨(ih sent).1, by rw [(ih sent).2]⟩
            · split
              · exact ⟨by rw [(ih (sent + 1)).1], by rw [(ih (sent + 1)).2]⟩
              · exact ⟨rfl, rfl⟩

/-- When every end-marker line fits the scanner's buffer, the whole result,
error included, is that of the lines before the first end marker. -/
theorem lineLoop_takeWhile (unmarshal : Str → Option StreamResponse) (accepts : Nat → Bool)
    (lines : List Str) (hfit : ∀ l ∈ lines, isDoneLine l = true → scanTooLong l = false)
    (sent : Nat) :
    lineLoop unmarshal accepts sent lines =
      lineLoop unmarshal accepts sent
        (lines.takeWhile (fun l => !isDoneLine l)) := by
  induction lines generalizing sent with
  | nil => rfl
  | cons raw rest ih =>
    have hrest : ∀ l ∈ rest, isDoneLine l = true → scanTooLong l = false :=
      fun l hl => hfit l (List.mem_cons_of_mem _ hl)
    cases hd : isDoneLine raw with
    | true =>
      have hl := hfit raw (List.mem_cons_self _ _) hd
      have hd2 : TrimSpace raw = doneLine := by simpa [isDoneLine] using hd
      rw [takeWhile_cons_of_done raw rest hd, lineLoop_doneLine _ _ _ _ _ hl hd2]
      rfl
    | false =>
      rw [takeWhile_cons_of_not_done raw rest hd, lineLoop_cons, lineLoop_cons,
        ← ih hrest sent, ← ih hrest (sent + 1)]

theorem lineLoop_done_not_decoded (unmarshal : Str → Option StreamResponse)
    (accepts : Nat → Bool) (lines : List Str) (sent : Nat) :
    donePayload ∉ (lineLoop unmarshal accepts sent lines).decoded := by
  induction lines generalizing sent with
  | nil => simp [lineLoop]
  | cons raw rest ih =>
    rw [lineLoop_cons]
    split
    · simp
    · split
      · exact ih sent
      · split
        · simp
        · rename_i hne
          split
          · simp only [List.mem_cons, not_or]
            exact ⟨fun h => hne h.symm, ih sent⟩
          · split
            · simp only [List.mem_cons, not_or]
              exact ⟨fun h => hne h.symm, ih (sent + 1)⟩
            · simp only [List.mem_singleton]
              exact fun h => hne h.symm

/-- A skipped line that fits the scanner's buffer changes neither the events
forwarded nor the error. -/
theorem lineLoop_skip_head (unmarshal : Str → Option StreamResponse) (accepts : Nat → Bool)
    (sent : Nat) (raw : Str) (post : List Str) (hfit : scanTooLong raw = false)
    (h : isSkippedLine unmarshal raw) :
    (lineLoop unmarshal accepts sent (raw :: post)).forwarded =
      (lineLoop unmarshal accepts sent post).forwarded ∧
    (lineLoop unmarshal accepts sent (raw :: post)).err =
      (lineLoop unmarshal accepts sent post).err := by
  rw [lineLoop_cons, hfit]
  rcases h with h | h | ⟨h1, h2, h3⟩
  · simp [h]
  · simp [h]
  · by_cases he : TrimSpace raw = []
    · simp [he]
    · simp [he, h1, h2, h3]

theorem lineLoop_skip_middle (unmarshal : Str → Option StreamResponse) (accepts : Nat → Bool)
    (raw : Str) (post : List Str) (hfit : scanTooLong raw = false)
    (h : isSkippedLine unmarshal raw) (pre : List Str) (sent : Nat) :
    (lineLoop unmarshal accepts sent (pre ++ raw :: post)).forwarded =
      (lineLoop unmarshal accepts sent (pre ++ post)).forwarded ∧
    (lineLoop unmarshal accepts sent (pre ++ raw :: post)).err =
      (lineLoop unmarshal accepts sent (pre ++ post)).err := by
  induction pre generalizing sent with
  | nil => exact lineLoop_skip_head unmarshal accepts sent raw post hfit h
  | cons x pre ih =>
    simp only [List.cons_append]
    rw [lineLoop_cons, lineLoop_cons]
    split
    · exact ⟨rfl, rfl⟩
    · split
      · exact ih sent
      · split
        · exact ⟨rfl, rfl⟩
        · split
          · exact ih sent
          · split
            · exact ⟨by rw [(ih (sent + 1)).1], (ih (sent + 1)).2⟩
            · exact ⟨rfl, rfl⟩

/-! ## The streaming conversion -/

theorem selectLoop_quiet (trace later : List Received)
    (hq : ∀ x ∈ trace, isQuiet x = true) (fullContent : Str) (calls : List Str) :
    selectLoop fullContent calls (trace ++ Received.responseClosed :: later) =
      some { onContent := calls ++ (responsesOf trace).filterMap chunkOf,
             onComplete := some (parseResponse
               (fullContent ++ ((responsesOf trace).filterMap chunkOf).flatten)),
             err := none } := by
  induction trace generalizing fullContent calls with
  | nil => simp [selectLoop, responsesOf]
  | cons x rest ih =>
    have hrest : ∀ y ∈ rest, isQuiet y = true := fun y hy => hq y (List.mem_cons_of_mem _ hy)
    have hx : isQuiet x = true := hq x (List.mem_cons_self _ _)
    cases x with
    | responseClosed => simp [isQuiet] at hx
    | error e =>
      cases e with
      | some e => simp [isQuiet] at hx
      | none =>
        simp only [List.cons_append, selectLoop, responsesOf]
        exact ih hrest fullContent calls
    | response r =>
      simp only [List.cons_append, selectLoop, responsesOf]
      cases hch : r.Choices with
      | nil =>
        simp only [List.filterMap_cons, chunkOf, hch]
        exact ih hrest fullContent calls
      | cons first others =>
        by_cases hc : first.Delta.Content = []
        · simp only [List.filterMap_cons, chunkOf, hch, hc, if_true, ne_eq, not_true_eq_false,
            if_false]
          exact ih hrest fullContent calls
        · simp only [List.filterMap_cons, chunkOf, hch, hc, if_false, ne_eq, not_false_eq_true,
            if_true]
          refine (ih hrest _ _).trans ?_
          simp [List.append_assoc]

/-! ## Statements about the program -/

/-- C3: `isValidVariableName` accepts a name exactly when it is non-empty, holds
only ASCII letters, ASCII digits, `_` and `-`, does not start with a digit and
has at most 50 characters; so a name starting with a digit and a name longer
than 50 characters are rejected, and a name of exactly 50 allowed characters
not starting with a digit is accepted. -/
theorem isValidVariableName_spec (name : Str) :
    (isValidVariableName name = true ↔
      name ≠ [] ∧ (∀ c ∈ name, isNameChar c) ∧ ¬ startsWithDigit name ∧ name.length ≤ 50) ∧
    (startsWithDigit name → isValidVariableName name = false) ∧
    (name.length > 50 → isValidVariableName name = false) ∧
    (name.length = 50 → (∀ c ∈ name, isNameChar c) → ¬ startsWithDigit name →
      isValidVariableName name = true) := by
  have h := isValidVariableName_iff name
  refine ⟨h, ?_, ?_, ?_⟩
  · intro hd
    cases hv : isValidVariableName name with
    | false => rfl
    | true => exact absurd hd (h.1 hv).2.2.1
  · intro hl
    cases hv : isValidVariableName name with
    | false => rfl
    | true =>
      have := (h.1 hv).2.2.2
      omega
  · intro hl hall hnd
    refine h.2 ⟨?_, hall, hnd, by omega⟩
    intro he
    rw [he] at hl
    simp at hl

/-- C3 at sample names: fifty letters are accepted, fifty-one are rejected, and
a name starting with a digit is rejected. -/
theorem isValidVariableName_spec_witness :
    isValidVariableName (List.replicate 50 'a') = true ∧
    isValidVariableName (List.replicate 51 'a') = false ∧
    isValidVariableName "1abc".toList = false :=
  ⟨(isValidVariableName_spec (List.replicate 50 'a')).2.2.2 (by decide)
      (fun c hc => by
        rw [List.eq_of_mem_replicate hc]
        exact Or.inl (Or.inl ⟨by decide, by decide⟩))
      (by
        rintro ⟨c, rest, he, hd⟩
        cases he
        revert hd
        unfold isAsciiDigit
        decide),
    (isValidVariableName_spec (List.replicate 51 'a')).2.2.1 (by decide),
    (isValidVariableName_spec "1abc".toList).2.1
      ⟨'1', "abc".toList, rfl, by unfold isAsciiDigit; decide⟩⟩

/-- C8: `IsValid` is true exactly when the three fields are all non-empty, and
false as soon as one of them is empty. -/
theorem Config_IsValid_spec (c : Config) :
    (c.IsValid = true ↔ c.APIURL ≠ [] ∧ c.Model ≠ [] ∧ c.APIKey ≠ []) ∧
    ((c.APIURL = [] ∨ c.Model = [] ∨ c.APIKey = []) → c.IsValid = false) := by
  have h : c.IsValid = true ↔ c.APIURL ≠ [] ∧ c.Model ≠ [] ∧ c.APIKey ≠ [] := by
    simp only [Config.IsValid, Bool.and_eq_true, bne_iff_ne]
    tauto
  refine ⟨h, ?_⟩
  intro he
  cases hv : c.IsValid with
  | false => rfl
  | true =>
    have := h.1 hv
    tauto

/-- C8 at sample records: a record with an empty key is not valid, a record with
three non-empty fields is. -/
theorem Config_IsValid_spec_witness :
    Config.IsValid { APIURL := "u".toList, Model := "m".toList, APIKey := [] } = false ∧
    Config.IsValid { APIURL := "u".toList, Model := "m".toList, APIKey := "k".toList } = true :=
  ⟨(Config_IsValid_spec { APIURL := "u".toList, Model := "m".toList, APIKey := [] }).2
      (Or.inr (Or.inr rfl)),
    (Config_IsValid_spec
      { APIURL := "u".toList, Model := "m".toList, APIKey := "k".toList }).1.2
      ⟨by decide, by decide, by decide⟩⟩

/-- C7: for a style keyword other than "camel", "pascal", "snake" and "kebab",
`buildPrompt` returns the prompt it returns for "camel", and that prompt is the
template filled with the source text, the camelCase description and the
camelCase examples. -/
theorem buildPrompt_unknown_style (text style : Str)
    (hc : style ≠ "camel".toList) (hp : style ≠ "pascal".toList)
    (hs : style ≠ "snake".toList) (hk : style ≠ "kebab".toList) :
    buildPrompt text style = buildPrompt text "camel".toList ∧
    buildPrompt text style =
      "作为专业的变量命名助手，为中文词汇\"".toList ++ text ++
      ("\"生成高质量的英文变量名。\n\n## 要求\n- 命名风格: 驼峰命名法 (camelCase)\n" ++
       "- 参考示例: userName, userProfile, dataCount, isActive\n- 生成3-5个选项\n" ++
       "- 使用地道英语，避免中式英语\n- 符合编程最佳实践\n\n## 输出格式\n每行一个变量名，格式: 变量名 - 说明\n示例:\n" ++
       "userName - 用户名称\naccountName - 账户名称\nuserAccount - 用户账户\n\n## 命名原则\n" ++
       "1. 语义准确: 准确表达概念含义\n2. 简洁明了: 避免冗长或复杂的词汇\n3. 约定俗成: 使用业界通用术语\n" ++
       "4. 上下文适配: 考虑在代码中的使用场景\n\n现在开始生成变量名:").toList ∧
    styleTexts style =
      ("驼峰命名法 (camelCase)".toList, "userName, userProfile, dataCount, isActive".toList) := by
  have h : styleTexts style = styleTexts "camel".toList := by
    simp only [styleTexts, if_neg hc, if_neg hp, if_neg hs, if_neg hk, if_true]
  have hcamel : styleTexts "camel".toList =
      ("驼峰命名法 (camelCase)".toList,
        "userName, userProfile, dataCount, isActive".toList) := by
    simp only [styleTexts, if_true]
  refine ⟨?_, ?_, ?_⟩
  · simp only [buildPrompt, h]
  · simp only [buildPrompt, h, hcamel, List.append_assoc]
    set_option maxRecDepth 100000 in
    rfl
  · rw [h, hcamel]

/-- C7 at the empty style keyword and the text "用户名": the whole prompt. -/
theorem buildPrompt_unknown_style_witness :
    ([] : Str) ≠ "camel".toList ∧
    buildPrompt "用户名".toList [] = buildPrompt "用户名".toList "camel".toList ∧
    buildPrompt "用户名".toList [] =
      ("作为专业的变量命名助手，为中文词汇\"用户名\"生成高质量的英文变量名。\n\n## 要求\n" ++
       "- 命名风格: 驼峰命名法 (camelCase)\n" ++
       "- 参考示例: userName, userProfile, dataCount, isActive\n- 生成3-5个选项\n" ++
       "- 使用地道英语，避免中式英语\n- 符合编程最佳实践\n\n## 输出格式\n每行一个变量名，格式: 变量名 - 说明\n示例:\n" ++
       "userName - 用户名称\naccountName - 账户名称\nuserAccount - 用户账户\n\n## 命名原则\n" ++
       "1. 语义准确: 准确表达概念含义\n2. 简洁明了: 避免冗长或复杂的词汇\n3. 约定俗成: 使用业界通用术语\n" ++
       "4. 上下文适配: 考虑在代码中的使用场景\n\n现在开始生成变量名:").toList :=
  ⟨by decide,
    (buildPrompt_unknown_style "用户名".toList [] (by decide) (by decide) (by decide)
      (by decide)).1,
    (buildPrompt_unknown_style "用户名".toList [] (by decide) (by decide) (by decide)
      (by decide)).2.1⟩

/-- C4: when some line has the trimmed text "data: [DONE]" and the consumer takes
every event, the line loop forwards the events and decodes the payloads of the
lines before the first such line and no others, and "[DONE]" is never handed to
the JSON decoder; when the end-marker lines fit the scanner's buffer the whole
result, error included, is that of the lines before the first one. -/
theorem lineLoop_stops_at_done (unmarshal : Str → Option StreamResponse) (lines : List Str)
    (h : ∃ l ∈ lines, isDoneLine l = true) :
    (lineLoop unmarshal acceptAll 0 lines).forwarded =
      (lineLoop unmarshal acceptAll 0
        (lines.takeWhile (fun l => !isDoneLine l))).forwarded ∧
    (lineLoop unmarshal acceptAll 0 lines).decoded =
      (lineLoop unmarshal acceptAll 0
        (lines.takeWhile (fun l => !isDoneLine l))).decoded ∧
    ((∀ l ∈ lines, isDoneLine l = true → scanTooLong l = false) →
      lineLoop unmarshal acceptAll 0 lines =
        lineLoop unmarshal acceptAll 0 (lines.takeWhile (fun l => !isDoneLine l))) ∧
    (lines.takeWhile (fun l => !isDoneLine l)).length < lines.length ∧
    donePayload ∉ (lineLoop unmarshal acceptAll 0 lines).decoded := by
  refine ⟨(lineLoop_takeWhile_events unmarshal acceptAll lines 0).1,
    (lineLoop_takeWhile_events unmarshal acceptAll lines 0).2,
    fun hfit => lineLoop_takeWhile unmarshal acceptAll lines hfit 0, ?_,
    lineLoop_done_not_decoded unmarshal acceptAll lines 0⟩
  obtain ⟨l, hl, hd⟩ := h
  clear unmarshal
  induction lines with
  | nil => cases hl
  | cons x rest ih =>
    by_cases hx : isDoneLine x = true
    · simp [List.takeWhile, hx]
    · have hl2 : l ∈ rest := by
        rcases List.mem_cons.1 hl with h1 | h1
        · subst h1
          exact absurd hd hx
        · exact h1
      have hx2 : isDoneLine x = false := by simpa using hx
      have := ih hl2
      simp only [List.takeWhile, hx2, Bool.not_false, List.length_cons]
      omega

/-- C4 at the sample lines: only the event before the end marker is forwarded
and decoded. -/
theorem lineLoop_stops_at_done_witness :
    (∃ l ∈ sampleLines, isDoneLine l = true) ∧
    (lineLoop sampleUnmarshal acceptAll 0 sampleLines).forwarded =
      (lineLoop sampleUnmarshal acceptAll 0 ["data: a".toList]).forwarded ∧
    (lineLoop sampleUnmarshal acceptAll 0 sampleLines).decoded = ["a".toList] ∧
    lineLoop sampleUnmarshal acceptAll 0 sampleLines =
      lineLoop sampleUnmarshal acceptAll 0 ["data: a".toList] ∧
    "[DONE]".toList ∉ (lineLoop sampleUnmarshal acceptAll 0 sampleLines).decoded :=
  ⟨by decide,
    (lineLoop_stops_at_done sampleUnmarshal sampleLines (by decide)).1,
    (lineLoop_stops_at_done sampleUnmarshal sampleLines (by decide)).2.1,
    (lineLoop_stops_at_done sampleUnmarshal sampleLines (by decide)).2.2.1 (by decide),
    (lineLoop_stops_at_done sampleUnmarshal sampleLines (by decide)).2.2.2.2⟩

/-- C5: a blank line of 70000 spaces is blank after trimming, yet with it between
two events the line loop forwards the first event only and reports the
scanner's error, while without it the loop forwards both events and reports no
error. -/
theorem lineLoop_long_blank_line :
    isSkippedLine sampleUnmarshal longBlankLine ∧
    lineLoop sampleUnmarshal acceptAll 0
        ["data: a".toList, longBlankLine, "data: b".toList] =
      { forwarded := [sampleEvent "a".toList], decoded := ["a".toList],
        err := some (ZhvError.readFailed ZhvError.tokenTooLong) } ∧
    lineLoop sampleUnmarshal acceptAll 0 ["data: a".toList, "data: b".toList] =
      { forwarded := [sampleEvent "a".toList, sampleEvent "b".toList],
        decoded := ["a".toList, "b".toList], err := none } := by
  have hblank : TrimSpace longBlankLine = [] := by
    apply TrimSpace_of_all_space
    intro c hc
    rw [List.eq_of_mem_replicate hc]
    decide
  have hlong : scanTooLong longBlankLine = true := by
    simp only [scanTooLong, longBlankLine, goLen_replicate_space, maxScanTokenSize]
    decide
  have hstep : ∀ rest : List Str,
      lineLoop sampleUnmarshal acceptAll 0 ("data: a".toList :: rest) =
        { forwarded := sampleEvent "a".toList ::
            (lineLoop sampleUnmarshal acceptAll 1 rest).forwarded,
          decoded := "a".toList :: (lineLoop sampleUnmarshal acceptAll 1 rest).decoded,
          err := (lineLoop sampleUnmarshal acceptAll 1 rest).err } := fun _ => rfl
  refine ⟨Or.inl hblank, ?_, by decide⟩
  rw [hstep, lineLoop_tooLong _ _ _ _ _ hlong]

/-- C9: when the channels deliver events (and receives from the closed error
channel) and then the response channel closes, `ConvertToVariableNameStream`
calls `onContent` once, in order, for each event whose first choice has
non-empty delta content, passes `parseResponse` of the concatenated chunks to
`onComplete` and returns no error; the buffered `ConvertToVariableName` returns
the same list for a response whose first choice has that concatenation as
message content. -/
theorem stream_agrees_with_buffered (trace later : List Received) (chat : ChatResponse)
    (first : Choice) (others : List Choice)
    (hq : ∀ x ∈ trace, isQuiet x = true)
    (hchat : chat.Choices = first :: others)
    (hcontent : first.Message.Content = ((responsesOf trace).filterMap chunkOf).flatten) :
    ConvertToVariableNameStream (trace ++ Received.responseClosed :: later) =
      some { onContent := (responsesOf trace).filterMap chunkOf,
             onComplete := some (parseResponse ((responsesOf trace).filterMap chunkOf).flatten),
             err := none } ∧
    ConvertToVariableName (Except.ok chat) =
      Except.ok (parseResponse ((responsesOf trace).filterMap chunkOf).flatten) := by
  refine ⟨?_, ?_⟩
  · rw [ConvertToVariableNameStream, selectLoop_quiet trace later hq]
    simp
  · simp [ConvertToVariableName, hchat, hcontent]

/-- C9 at the sample deliveries: the chunks "foo" and "Bar - x" are reported, and
both conversions return the candidate "fooBar". -/
theorem stream_agrees_with_buffered_witness :
    (∀ x ∈ sampleTrace, isQuiet x = true) ∧
    ConvertToVariableNameStream (sampleTrace ++ [Received.responseClosed]) =
      some { onContent := ["foo".toList, "Bar - x".toList],
             onComplete := some ["fooBar".toList],
             err := none } ∧
    ConvertToVariableName (Except.ok sampleChat) = Except.ok ["fooBar".toList] :=
  ⟨by decide,
    (stream_agrees_with_buffered sampleTrace [] sampleChat
      { Index := 0, Message := { Role := "assistant".toList, Content := "fooBar - x".toList } }
      [] (by decide) rfl (by decide)).1,
    (stream_agrees_with_buffered sampleTrace [] sampleChat
      { Index := 0, Message := { Role := "assistant".toList, Content := "fooBar - x".toList } }
      [] (by decide) rfl (by decide)).2⟩

/-- C2, as the code has it: for a response text with a character that is not
white space, `parseResponse` returns a non-empty list. -/
theorem parseResponse_nonempty (content : Str) (h : hasInk content) :
    parseResponse content ≠ [] := by
  rw [parseResponse_eq]
  by_cases h1 : (Split content "\n".toList).filterMap lineCandidate = []
  · have h2 := TrimSpace_ne_nil _ (hasInk_newlinesToSpaces content h)
    rw [if_pos h1, if_neg h2]
    exact List.cons_ne_nil _ _
  · rw [if_neg h1]
    exact h1

/-- C2, as the code has it, at the sample text. -/
theorem parseResponse_nonempty_witness :
    hasInk sampleProse ∧ parseResponse sampleProse ≠ [] :=
  ⟨by decide, parseResponse_nonempty sampleProse (by decide)⟩

/-- C2, as stated, fails: the text of one space is not empty and `parseResponse`
returns the empty list for it. -/
theorem parseResponse_blank_text :
    " ".toList ≠ [] ∧ parseResponse " ".toList = [] := by
  decide

/-- C6, as stated, fails: in "foo  - bar" the text before " - " is "foo " and is
not accepted, nor is the whole line, yet `parseResponse` returns the trimmed
name "foo" and not the cleaned text. -/
theorem parseResponse_loose_line :
    hasInk looseLine ∧
    (∀ l ∈ Split looseLine "\n".toList, ¬ yieldsCandidateUntrimmed l) ∧
    parseResponse looseLine = ["foo".toList] ∧
    parseResponse looseLine ≠ [TrimSpace (newlinesToSpaces looseLine)] := by
  decide

/-- C6, as the code has it: for a response text with a character that is not
white space in which no line yields a candidate, the left side of " - " being
trimmed of surrounding white space before it is tested, `parseResponse` returns
exactly one element, the text with its newlines replaced by spaces and then
trimmed. -/
theorem parseResponse_fallback (content : Str) (hink : hasInk content)
    (hno : ∀ l ∈ Split content "\n".toList, ¬ yieldsCandidate l) :
    parseResponse content = [TrimSpace (newlinesToSpaces content)] := by
  rw [parseResponse_eq, filterMap_lineCandidate_nil _ hno]
  have h2 := TrimSpace_ne_nil _ (hasInk_newlinesToSpaces content hink)
  rw [if_pos rfl, if_neg h2]

/-- C6 at the sample text: the two lines come back as one candidate. -/
theorem parseResponse_fallback_witness :
    hasInk sampleProse ∧
    (∀ l ∈ Split sampleProse "\n".toList, ¬ yieldsCandidate l) ∧
    parseResponse sampleProse = ["hello world foo bar".toList] :=
  ⟨by decide, by decide, parseResponse_fallback sampleProse (by decide) (by decide)⟩

/-- C1: for entries made of a recognised line prefix, a name accepted by
`isValidVariableName` that begins with a letter, and a description without
newline that has a character other than white space, `parseResponse` applied
to the lines prefix + name + " - " + description joined by newlines returns
the names in line order, duplicates kept. -/
theorem parseResponse_entries (entries : List Entry) (h : ∀ e ∈ entries, e.wellFormed) :
    parseResponse (joinLines (entries.map Entry.line)) = entries.map Entry.name := by
  cases hent : entries with
  | nil => decide
  | cons e rest =>
    rw [← hent]
    have hne : entries.map Entry.line ≠ [] := by
      rw [hent]
      simp
    have hnl : ∀ l ∈ entries.map Entry.line, '\n' ∉ l := by
      intro l hl
      obtain ⟨x, hx, rfl⟩ := List.mem_map.1 hl
      exact entry_line_no_newline x (h x hx)
    have hnames : entries.map Entry.name ≠ [] := by
      rw [hent]
      simp
    rw [parseResponse_eq, Split_joinLines _ hne hnl, filterMap_lineCandidate_entries entries h,
      if_neg hnames]

theorem sampleEntries_wellFormed : ∀ e ∈ sampleEntries, e.wellFormed := by
  intro e he
  have hcases : e = { pre := "1. ".toList, name := "fooBar".toList, desc := "desc".toList } ∨
      e = { pre := "- ".toList, name := "fooBar".toList, desc := "again".toList } := by
    simpa [sampleEntries] using he
  rcases hcases with rfl | rfl
  · exact ⟨Or.inr (Or.inr (Or.inr ⟨1, by decide, by decide, by decide⟩)), by decide,
      ⟨'f', "ooBar".toList, rfl, Or.inl ⟨by decide, by decide⟩⟩, by decide, by decide⟩
  · exact ⟨Or.inr (Or.inl rfl), by decide,
      ⟨'f', "ooBar".toList, rfl, Or.inl ⟨by decide, by decide⟩⟩, by decide, by decide⟩

/-- C1 at the sample entries: "1. fooBar - desc" and "- fooBar - again" give the
name twice. -/
theorem parseResponse_entries_witness :
    (∀ e ∈ sampleEntries, e.wellFormed) ∧
    parseResponse "1. fooBar - desc\n- fooBar - again".toList =
      ["fooBar".toList, "fooBar".toList] :=
  ⟨sampleEntries_wellFormed, parseResponse_entries sampleEntries sampleEntries_wellFormed⟩

/-- C10: on the nine-byte key "abcdefghi" `maskAPIKey` returns "abcd*fghi": the
length is kept, eight of the nine bytes stay visible, and eight is not less than
half of nine. -/
theorem maskAPIKey_nine_bytes :
    maskAPIKey nineByteKey = [97, 98, 99, 100, 42, 102, 103, 104, 105] ∧
    (maskAPIKey nineByteKey).length = nineByteKey.length ∧
    visibleCount (maskAPIKey nineByteKey) = 8 ∧
    ¬ (2 * visibleCount (maskAPIKey nineByteKey) < nineByteKey.length) := by
  decide

end Zhv
